import Mathlib

/-!
Verification of the cross-table lookup (CTL) engine of `src/evm/src/cross_table_lookup.rs`.

The Rust code is shallowly embedded as follows:
* the generic field `F: Field` becomes a Lean type `F` with `[Field F] [DecidableEq F]`;
* a table's trace (`&[PolynomialValues<F>]`, column-major) becomes a `Trace F`:
  a number of rows together with a total value function `val c r` standing for
  `trace[c].values[r]`;
* rows of packed values (`&[P]`) become total functions `Nat → F`;
* a Rust `panic!`/`assert!` abort becomes the `none` case of an `Option` result
  (or a dedicated constructor of an outcome type);
* `anyhow::Result` becomes an explicit outcome type.
-/

set_option linter.unusedSectionVars false

namespace CTL

variable {F : Type} [Field F] [DecidableEq F]

/-- A table's trace in column-major form. `val c r` is the value of column `c` at row `r`
(Rust: `trace[c].values[r]`); `numRows` is the common length of the columns
(Rust: `trace[0].values.len()`, called `degree` in `partial_products`). -/
structure Trace (F : Type) where
  numRows : Nat
  val : Nat → Nat → F

/-- Two linear combinations of columns (current row and next row) plus a constant,
mirroring `struct Column<F>` in the source. -/
structure Column (F : Type) where
  linear_combination : List (Nat × F)
  next_row_linear_combination : List (Nat × F)
  constant : F

/-- `Column::single`: a single column in the current row. -/
def Column.single (c : Nat) : Column F :=
  { linear_combination := [(c, 1)], next_row_linear_combination := [], constant := 0 }

/-- `Column::one`: the constant linear combination 1 (`Column::constant(F::ONE)`). -/
def Column.one : Column F :=
  { linear_combination := [], next_row_linear_combination := [], constant := 1 }

/-- `Column::eval_with_next`: evaluates the current-row and next-row linear combinations
against the given rows and sums them with the constant. -/
def Column.eval_with_next (col : Column F) (v next_v : Nat → F) : F :=
  (col.linear_combination.map (fun p => v p.1 * p.2)).sum
    + (col.next_row_linear_combination.map (fun p => next_v p.1 * p.2)).sum
    + col.constant

/-- `Column::eval_table`: evaluate on a row of a column-major trace. When the next-row
linear combination is non-empty, its contribution is added only for rows strictly before
the last one (the source comment: at the last row the next row's values are taken to be 0). -/
def Column.eval_table (col : Column F) (trace : Trace F) (row : Nat) : F :=
  let res := (col.linear_combination.map (fun p => trace.val p.1 row * p.2)).sum + col.constant
  if ¬ col.next_row_linear_combination.isEmpty ∧ row < trace.numRows - 1 then
    res + (col.next_row_linear_combination.map (fun p => trace.val p.1 (row + 1) * p.2)).sum
  else
    res

/-- `GrandProductChallenge`: the pair (β, γ) of randomizing field elements. -/
structure GrandProductChallenge (T : Type) where
  beta : T
  gamma : T
deriving DecidableEq

/-- Modelled from the spec: `reduce_with_powers` lives in the `plonky2` crate
(`plonk_common`), outside `src/`; only its callers are in `src/`. The spec's data model
(§3) defines the combination as `combine(row) = (Σ β^i · row[i]) + γ` and §4.3 calls the
reduction Horner-style; the fold below is that Horner pass, processing the terms from the
last to the first so that `terms[i]` receives coefficient `alpha^i`. -/
def reduce_with_powers (terms : List F) (alpha : F) : F :=
  terms.foldr (fun t sum => sum * alpha + t) 0

/-- `GrandProductChallenge::combine`: β-power reduction of the payload scalars plus γ. -/
def GrandProductChallenge.combine (ch : GrandProductChallenge F) (terms : List F) : F :=
  reduce_with_powers terms ch.beta + ch.gamma

/-- A `Table` identifier is one of a fixed enumeration of sub-machines; it is only ever
used as an index, so it is embedded as a `Nat`. `TableWithColumns` bundles it with the
payload columns and the optional filter column. -/
structure TableWithColumns (F : Type) where
  table : Nat
  columns : List (Column F)
  filter_column : Option (Column F)

/-- `CrossTableLookup`: the looking tables and the looked table. -/
structure CrossTableLookup (F : Type) where
  looking_tables : List (TableWithColumns F)
  looked_table : TableWithColumns F

/-- The filter value of a row: the filter column evaluated there, or 1 when the filter
column is absent (both `partial_products` and `testutils::process_table` use this shape). -/
def filterAt (trace : Trace F) (filter_column : Option (Column F)) (i : Nat) : F :=
  match filter_column with
  | some column => column.eval_table trace i
  | none => 1

/-- The challenge-combined payload of row `i`: every payload column is evaluated with
`eval_table` and the evaluations are combined with the challenge. -/
def combineRow (trace : Trace F) (columns : List (Column F))
    (challenge : GrandProductChallenge F) (i : Nat) : F :=
  challenge.combine (columns.map (fun c => c.eval_table trace i))

/-- The loop of `partial_products`, processing rows `i-1, i-2, ..., 0` with running
product `p`, returning the pushed values in push order (row `i-1` first), or `none`
when the `assert_eq!(filter, F::ZERO, "Non-binary filter?")` assertion fires. -/
def ppLoopRev (trace : Trace F) (columns : List (Column F))
    (filter_column : Option (Column F)) (challenge : GrandProductChallenge F) :
    Nat → F → Option (List F)
  | 0, _ => some []
  | i + 1, p =>
    if filterAt trace filter_column i = 1 then
      (ppLoopRev trace columns filter_column challenge i
          (p * combineRow trace columns challenge i)).map
        (fun rest => p * combineRow trace columns challenge i :: rest)
    else if filterAt trace filter_column i = 0 then
      (ppLoopRev trace columns filter_column challenge i p).map (fun rest => p :: rest)
    else
      none

/-- `partial_products`: walk the rows from the last to the first with running product 1,
multiplying in the combined payload of every selected row, push each running value and
reverse at the end. `none` models the non-binary-filter assertion failure. -/
def partial_products (trace : Trace F) (columns : List (Column F))
    (filter_column : Option (Column F)) (challenge : GrandProductChallenge F) :
    Option (List F) :=
  (ppLoopRev trace columns filter_column challenge trace.numRows 1).map List.reverse

/-- The per-row factor the built Z sequence multiplies in at a binary-filtered row:
the combined payload when the filter is 1, and 1 when the filter is 0. -/
def selectRow (trace : Trace F) (columns : List (Column F))
    (filter_column : Option (Column F)) (challenge : GrandProductChallenge F) (i : Nat) : F :=
  if filterAt trace filter_column i = 1 then combineRow trace columns challenge i else 1

/-- `prodSelect trace columns filt ch i k` is the product of `selectRow` over the `k`
rows `i, i+1, ..., i+k-1`. -/
def prodSelect (trace : Trace F) (columns : List (Column F))
    (filter_column : Option (Column F)) (challenge : GrandProductChallenge F) :
    Nat → Nat → F
  | _, 0 => 1
  | i, k + 1 =>
      selectRow trace columns filter_column challenge i
        * prodSelect trace columns filter_column challenge (i + 1) k

/-- `allRowsProduct trace columns ch i k`: the product of the challenge-combined payloads
of the `k` rows `i, ..., i+k-1`, with no filtering at all. -/
def allRowsProduct (trace : Trace F) (columns : List (Column F))
    (challenge : GrandProductChallenge F) : Nat → Nat → F
  | _, 0 => 1
  | i, k + 1 =>
      combineRow trace columns challenge i * allRowsProduct trace columns challenge (i + 1) k

/-- `CtlCheckVars`: the two consecutive-row openings of one Z polynomial together with
the challenge and the Column definitions needed to re-derive the row combination. -/
structure CtlCheckVars (F : Type) where
  local_z : F
  next_z : F
  challenges : GrandProductChallenge F
  columns : List (Column F)
  filter_column : Option (Column F)

/-- Modelled from the spec: the constraint consumer (`crate::constraint_consumer`, not
under `src/`) accepts last-row-only and transition-only constraints; it is embedded as
the two lists of constraint values emitted so far, in emission order. -/
structure ConstraintConsumer (F : Type) where
  constraints_last_row : List F
  constraints_transition : List F

/-- `ConstraintConsumer::constraint_last_row`: record a constraint checked only on the
last row of the evaluation domain. -/
def ConstraintConsumer.constraint_last_row (cc : ConstraintConsumer F) (c : F) :
    ConstraintConsumer F :=
  { cc with constraints_last_row := cc.constraints_last_row ++ [c] }

/-- `ConstraintConsumer::constraint_transition`: record a constraint checked on every
non-final row. -/
def ConstraintConsumer.constraint_transition (cc : ConstraintConsumer F) (c : F) :
    ConstraintConsumer F :=
  { cc with constraints_transition := cc.constraints_transition ++ [c] }

/-- The re-derived combined payload value of a `CtlCheckVars` entry against an evaluation
frame (`local_values`, `next_values`): every column evaluated with `eval_with_next`, then
combined with the challenge. -/
def combinedOf (lv nv : Nat → F) (v : CtlCheckVars F) : F :=
  v.challenges.combine (v.columns.map (fun c => c.eval_with_next lv nv))

/-- The re-derived filter value of a `CtlCheckVars` entry: the filter column evaluated
with `eval_with_next`, or 1 when absent. -/
def filterOf (lv nv : Nat → F) (v : CtlCheckVars F) : F :=
  match v.filter_column with
  | some column => column.eval_with_next lv nv
  | none => 1

/-- The selector of a `CtlCheckVars` entry: `filter * combined + 1 - filter`, exactly the
expression `local_filter * combined + P::ONES - local_filter` of the source. -/
def selectOf (lv nv : Nat → F) (v : CtlCheckVars F) : F :=
  filterOf lv nv v * combinedOf lv nv v + 1 - filterOf lv nv v

/-- `eval_cross_table_lookup_checks`: for every `CtlCheckVars` entry, re-derive the
combined payload and filter values, form the selector, and emit the last-row constraint
`local_z - select` followed by the transition constraint `next_z * select - local_z`. -/
def eval_cross_table_lookup_checks (lv nv : Nat → F) (ctl_vars : List (CtlCheckVars F))
    (consumer : ConstraintConsumer F) : ConstraintConsumer F :=
  ctl_vars.foldl
    (fun cons v =>
      let evals := v.columns.map (fun c => c.eval_with_next lv nv)
      let combined := v.challenges.combine evals
      let local_filter :=
        match v.filter_column with
        | some column => column.eval_with_next lv nv
        | none => 1
      let select := local_filter * combined + 1 - local_filter
      (cons.constraint_last_row (v.local_z - select)).constraint_transition
        (v.next_z * select - v.local_z))
    consumer

/-- Outcome of `verify_cross_table_lookups`. `ok st` models the `Ok(())` return, with
`st` the final per-table opening lists (what remains undrained is what the trailing
`debug_assert!` would inspect); `mismatch index` models the `ensure!` error return for
cross-table lookup number `index`; `missingData` models the `unwrap`/indexing panic hit
when an opening list or an extra-product vector is too short. -/
inductive CtlOutcome (F : Type) where
  | ok (leftover : List (List F))
  | mismatch (index : Nat)
  | missingData
deriving DecidableEq

/-- Consume the next first-row Z opening of table `t` (`ctl_zs_openings[t].next()`):
`none` when the iterator is exhausted. -/
def nextOpening (st : List (List F)) (t : Nat) : Option (F × List (List F)) :=
  match st.getD t [] with
  | [] => none
  | z :: rest => some (z, st.set t rest)

/-- The product of the next openings of the given looking tables, consumed in
looking-table order, threading the per-table opening lists. -/
def lookingProd (st : List (List F)) : List (TableWithColumns F) → Option (F × List (List F))
  | [] => some (1, st)
  | t :: ts =>
    match nextOpening st t.table with
    | none => none
    | some (z, st1) =>
      match lookingProd st1 ts with
      | none => none
      | some (p, st2) => some (z * p, st2)

/-- The challenge loop of `verify_cross_table_lookups` for one lookup: for challenges
`c, c+1, ...` (`k` of them left), consume the looking openings, multiply in the extra
looking product term, consume the looked opening and compare. -/
def runChallenges (looking : List (TableWithColumns F)) (lookedT : Nat) (extraVec : List F)
    (index : Nat) : Nat → Nat → List (List F) → CtlOutcome F
  | _, 0, st => .ok st
  | c, k + 1, st =>
    match lookingProd st looking with
    | none => .missingData
    | some (p, st1) =>
      match extraVec.get? c with
      | none => .missingData
      | some e =>
        match nextOpening st1 lookedT with
        | none => .missingData
        | some (lookedZ, st2) =>
          if p * e = lookedZ then runChallenges looking lookedT extraVec index (c + 1) k st2
          else .mismatch index

/-- The lookup loop of `verify_cross_table_lookups`, with `index` the enumeration
index of the current lookup. -/
def runLookups (extras : List (List F)) (num_challenges : Nat) :
    Nat → List (CrossTableLookup F) → List (List F) → CtlOutcome F
  | _, [], st => .ok st
  | index, ctl :: rest, st =>
    match extras.get? ctl.looked_table.table with
    | none => .missingData
    | some extraVec =>
      match runChallenges ctl.looking_tables ctl.looked_table.table extraVec index 0
          num_challenges st with
      | .ok st1 => runLookups extras num_challenges (index + 1) rest st1
      | r => r

/-- `verify_cross_table_lookups`: per lookup and per challenge, the product of the
looking tables' first-row Z openings times the looked table's extra looking product term
must equal the looked table's first-row Z opening; openings are consumed in lookup order,
then challenge order, then looking-table order. -/
def verify_cross_table_lookups (ctls : List (CrossTableLookup F))
    (ctl_zs_first : List (List F)) (ctl_extra_looking_products : List (List F))
    (num_challenges : Nat) : CtlOutcome F :=
  runLookups ctl_extra_looking_products num_challenges 0 ctls ctl_zs_first

/-- The consumption skeleton of one lookup's challenge loop: the same opening
consumption as `runChallenges`, but collecting the boolean outcome of every product
identity instead of stopping at the first failure. -/
def chalConsume (looking : List (TableWithColumns F)) (lookedT : Nat) (extraVec : List F) :
    Nat → Nat → List (List F) → Option (List Bool × List (List F))
  | _, 0, st => some ([], st)
  | c, k + 1, st =>
    match lookingProd st looking with
    | none => none
    | some (p, st1) =>
      match extraVec.get? c with
      | none => none
      | some e =>
        match nextOpening st1 lookedT with
        | none => none
        | some (lookedZ, st2) =>
          match chalConsume looking lookedT extraVec (c + 1) k st2 with
          | none => none
          | some (bs, st3) => some (decide (p * e = lookedZ) :: bs, st3)

/-- The consumption skeleton of the whole verification pass: all product-identity
outcomes in consumption order (lookup order, then challenge order), with the final
per-table opening lists; `none` when some opening list or extra vector is too short. -/
def lookupsConsume (extras : List (List F)) (num_challenges : Nat) :
    List (CrossTableLookup F) → List (List F) → Option (List Bool × List (List F))
  | [], st => some ([], st)
  | ctl :: rest, st =>
    match extras.get? ctl.looked_table.table with
    | none => none
    | some extraVec =>
      match chalConsume ctl.looking_tables ctl.looked_table.table extraVec 0
          num_challenges st with
      | none => none
      | some (bs, st1) =>
        match lookupsConsume extras num_challenges rest st1 with
        | none => none
        | some (bs2, st2) => some (bs ++ bs2, st2)

/-- The loop of `testutils::process_table`: rows `0, ..., i-1` in order; a row whose
filter evaluates to 1 contributes its evaluated payload (with its table id and row index)
to the multiset, a filter value of 0 skips the row, and any other value fires the
`assert_eq!(filter, F::ZERO, "Non-binary filter?")` assertion (`none`). -/
def process_table_loop (trace : Trace F) (twc : TableWithColumns F) :
    Nat → Option (List (List F × Nat × Nat))
  | 0 => some []
  | i + 1 =>
    match process_table_loop trace twc i with
    | none => none
    | some acc =>
      if filterAt trace twc.filter_column i = 1 then
        some (acc ++ [(twc.columns.map (fun c => c.eval_table trace i), twc.table, i)])
      else if filterAt trace twc.filter_column i = 0 then
        some acc
      else
        none

/-- `testutils::process_table`: the multiset contributions of one table, or `none` on a
non-binary filter value. -/
def process_table (trace : Trace F) (twc : TableWithColumns F) :
    Option (List (List F × Nat × Nat)) :=
  process_table_loop trace twc trace.numRows

/-- An entry of the serialization buffer: `write_usize` writes a length, `write_target`
writes one challenge component. The plonky2 byte-level primitives are not under `src/`;
the buffer is embedded as the list of written values. -/
inductive BufEntry (T : Type) where
  | usz (n : Nat)
  | tgt (t : T)
deriving DecidableEq

/-- `GrandProductChallengeSet`: `num_challenges` independently drawn challenges. -/
structure GrandProductChallengeSet (T : Type) where
  challenges : List (GrandProductChallenge T)
deriving DecidableEq

/-- `GrandProductChallengeSet::to_buffer`: write the challenge count, then each
challenge's β and γ as two consecutive values, in draw order. -/
def GrandProductChallengeSet.to_buffer {T : Type} (s : GrandProductChallengeSet T) :
    List (BufEntry T) :=
  BufEntry.usz s.challenges.length ::
    s.challenges.flatMap (fun ch => [BufEntry.tgt ch.beta, BufEntry.tgt ch.gamma])

/-- The read loop of `from_buffer`: read `n` challenges, each as two consecutive
values, returning them with the unread remainder of the buffer. -/
def readChallenges {T : Type} :
    Nat → List (BufEntry T) → Option (List (GrandProductChallenge T) × List (BufEntry T))
  | 0, buf => some ([], buf)
  | n + 1, BufEntry.tgt b :: BufEntry.tgt g :: rest =>
    match readChallenges n rest with
    | none => none
    | some (cs, buf) => some (GrandProductChallenge.mk b g :: cs, buf)
  | _ + 1, _ => none

/-- `GrandProductChallengeSet::from_buffer`: read the declared count, then that many
β/γ pairs; `none` models the `IoResult` error when the buffer runs out of data. -/
def GrandProductChallengeSet.from_buffer {T : Type} (buf : List (BufEntry T)) :
    Option (GrandProductChallengeSet T × List (BufEntry T)) :=
  match buf with
  | BufEntry.usz n :: rest =>
    match readChallenges n rest with
    | none => none
    | some (cs, buf1) => some (GrandProductChallengeSet.mk cs, buf1)
  | _ => none

instance : Fact (Nat.Prime 7) := ⟨by norm_num⟩

/-- A one-row trace over `ZMod 7` whose every value is 5, for concrete checks. -/
def exTrace1 : Trace (ZMod 7) := ⟨1, fun _ _ => 5⟩

/-- A two-row trace over `ZMod 7` with values 2 (row 0) and 3 (row 1) in every column. -/
def exTrace2 : Trace (ZMod 7) := ⟨2, fun _ r => if r = 0 then 2 else 3⟩

/-- The challenge β = 0, γ = 0 over `ZMod 7`. -/
def exCh0 : GrandProductChallenge (ZMod 7) := ⟨0, 0⟩

/-- The challenge β = 1, γ = 0 over `ZMod 7`. -/
def exCh1 : GrandProductChallenge (ZMod 7) := ⟨1, 0⟩

/-- The challenge β = 2, γ = 0 over `ZMod 7`. -/
def exCh2 : GrandProductChallenge (ZMod 7) := ⟨2, 0⟩

/-- A single cross-table lookup over `ZMod 7`: table 0 looks into table 1, both exposing
column 0 with no filter, for concrete checks. -/
def exCtls : List (CrossTableLookup (ZMod 7)) :=
  [⟨[⟨0, [Column.single 0], none⟩], ⟨1, [Column.single 0], none⟩⟩]

/-- A column over `ZMod 7` reading column 0 of both the current and the next row. -/
def exColNext : Column (ZMod 7) := ⟨[(0, 1)], [(0, 1)], 0⟩

lemma prodSelect_succ_right (trace : Trace F) (columns : List (Column F))
    (filt : Option (Column F)) (ch : GrandProductChallenge F) :
    ∀ (k r : Nat), prodSelect trace columns filt ch r (k + 1) =
      prodSelect trace columns filt ch r k * selectRow trace columns filt ch (r + k) := by
  intro k
  induction k with
  | zero =>
    intro r
    simp [prodSelect]
  | succ k ih =>
    intro r
    rw [show prodSelect trace columns filt ch r (k + 1 + 1)
        = selectRow trace columns filt ch r * prodSelect trace columns filt ch (r + 1) (k + 1)
      from rfl]
    rw [ih (r + 1)]
    rw [show prodSelect trace columns filt ch r (k + 1)
        = selectRow trace columns filt ch r * prodSelect trace columns filt ch (r + 1) k
      from rfl]
    rw [mul_assoc]
    have : r + 1 + k = r + (k + 1) := by omega
    rw [this]

lemma ppLoopRev_eq_of_binary (trace : Trace F) (columns : List (Column F))
    (filt : Option (Column F)) (ch : GrandProductChallenge F) :
    ∀ (i : Nat) (p : F),
      (∀ r, r < i → filterAt trace filt r = 0 ∨ filterAt trace filt r = 1) →
      ppLoopRev trace columns filt ch i p =
        some (((List.range i).reverse).map
          (fun r => p * prodSelect trace columns filt ch r (i - r))) := by
  intro i
  induction i with
  | zero =>
    intro p _
    simp [ppLoopRev]
  | succ i ih =>
    intro p hb
    have hb' : ∀ r, r < i → filterAt trace filt r = 0 ∨ filterAt trace filt r = 1 :=
      fun r hr => hb r (Nat.lt_succ_of_lt hr)
    have hrange : (List.range (i + 1)).reverse = i :: (List.range i).reverse := by
      rw [List.range_succ, List.reverse_append]
      rfl
    have hsub : i + 1 - i = 1 := by omega
    rcases hb i (Nat.lt_succ_self i) with h0 | h1
    · have hne : filterAt trace filt i ≠ 1 := by
        rw [h0]; exact zero_ne_one
      have hsel : selectRow trace columns filt ch i = 1 := by
        rw [selectRow, if_neg hne]
      rw [show ppLoopRev trace columns filt ch (i + 1) p
          = (if filterAt trace filt i = 1 then
              (ppLoopRev trace columns filt ch i (p * combineRow trace columns ch i)).map
                (fun rest => p * combineRow trace columns ch i :: rest)
            else if filterAt trace filt i = 0 then
              (ppLoopRev trace columns filt ch i p).map (fun rest => p :: rest)
            else none)
        from rfl]
      rw [if_neg hne, if_pos h0, ih p hb', Option.map_some', hrange, List.map_cons]
      congr 2
      · rw [hsub]
        rw [show prodSelect trace columns filt ch i 1
            = selectRow trace columns filt ch i * prodSelect trace columns filt ch (i + 1) 0
          from rfl]
        rw [hsel]
        simp [prodSelect]
      · apply List.map_congr_left
        intro r hr
        have hri : r < i := by
          rw [List.mem_reverse, List.mem_range] at hr
          exact hr
        have e1 : i + 1 - r = (i - r) + 1 := by omega
        have e2 : r + (i - r) = i := by omega
        rw [e1, prodSelect_succ_right, e2, hsel, mul_one]
    · have hsel : selectRow trace columns filt ch i = combineRow trace columns ch i := by
        rw [selectRow, if_pos h1]
      rw [show ppLoopRev trace columns filt ch (i + 1) p
          = (if filterAt trace filt i = 1 then
              (ppLoopRev trace columns filt ch i (p * combineRow trace columns ch i)).map
                (fun rest => p * combineRow trace columns ch i :: rest)
            else if filterAt trace filt i = 0 then
              (ppLoopRev trace columns filt ch i p).map (fun rest => p :: rest)
            else none)
        from rfl]
      rw [if_pos h1, ih (p * combineRow trace columns ch i) hb', Option.map_some',
        hrange, List.map_cons]
      congr 2
      · rw [hsub]
        rw [show prodSelect trace columns filt ch i 1
            = selectRow trace columns filt ch i * prodSelect trace columns filt ch (i + 1) 0
          from rfl]
        rw [hsel]
        simp [prodSelect]
      · apply List.map_congr_left
        intro r hr
        have hri : r < i := by
          rw [List.mem_reverse, List.mem_range] at hr
          exact hr
        have e1 : i + 1 - r = (i - r) + 1 := by omega
        have e2 : r + (i - r) = i := by omega
        rw [e1, prodSelect_succ_right, e2, hsel]
        ring

lemma ppLoopRev_isSome_iff (trace : Trace F) (columns : List (Column F))
    (filt : Option (Column F)) (ch : GrandProductChallenge F) :
    ∀ (i : Nat) (p : F),
      (ppLoopRev trace columns filt ch i p).isSome = true ↔
        ∀ r, r < i → filterAt trace filt r = 0 ∨ filterAt trace filt r = 1 := by
  intro i
  induction i with
  | zero =>
    intro p
    simp [ppLoopRev]
  | succ i ih =>
    intro p
    rw [show ppLoopRev trace columns filt ch (i + 1) p
        = (if filterAt trace filt i = 1 then
            (ppLoopRev trace columns filt ch i (p * combineRow trace columns ch i)).map
              (fun rest => p * combineRow trace columns ch i :: rest)
          else if filterAt trace filt i = 0 then
            (ppLoopRev trace columns filt ch i p).map (fun rest => p :: rest)
          else none)
      from rfl]
    by_cases h1 : filterAt trace filt i = 1
    · rw [if_pos h1, Option.isSome_map', ih]
      constructor
      · intro hb r hr
        rcases Nat.lt_succ_iff_lt_or_eq.mp hr with h | h
        · exact hb r h
        · subst h; exact Or.inr h1
      · intro hb r hr
        exact hb r (Nat.lt_succ_of_lt hr)
    · by_cases h0 : filterAt trace filt i = 0
      · rw [if_neg h1, if_pos h0, Option.isSome_map', ih]
        constructor
        · intro hb r hr
          rcases Nat.lt_succ_iff_lt_or_eq.mp hr with h | h
          · exact hb r h
          · subst h; exact Or.inl h0
        · intro hb r hr
          exact hb r (Nat.lt_succ_of_lt hr)
      · rw [if_neg h1, if_neg h0]
        constructor
        · intro hfalse
          exact absurd hfalse (by simp)
        · intro hb
          rcases hb i (Nat.lt_succ_self i) with h | h
          · exact absurd h h0
          · exact absurd h h1

lemma partial_products_isSome_iff (trace : Trace F) (columns : List (Column F))
    (filt : Option (Column F)) (ch : GrandProductChallenge F) :
    (partial_products trace columns filt ch).isSome = true ↔
      ∀ r, r < trace.numRows → filterAt trace filt r = 0 ∨ filterAt trace filt r = 1 := by
  rw [partial_products, Option.isSome_map']
  exact ppLoopRev_isSome_iff trace columns filt ch trace.numRows 1

lemma partial_products_binary_of_some (trace : Trace F) (columns : List (Column F))
    (filt : Option (Column F)) (ch : GrandProductChallenge F) (zs : List F)
    (hz : partial_products trace columns filt ch = some zs) :
    ∀ r, r < trace.numRows → filterAt trace filt r = 0 ∨ filterAt trace filt r = 1 := by
  apply (partial_products_isSome_iff trace columns filt ch).mp
  rw [hz]
  rfl

lemma partial_products_eq_of_binary (trace : Trace F) (columns : List (Column F))
    (filt : Option (Column F)) (ch : GrandProductChallenge F)
    (hb : ∀ r, r < trace.numRows → filterAt trace filt r = 0 ∨ filterAt trace filt r = 1) :
    partial_products trace columns filt ch =
      some ((List.range trace.numRows).map
        (fun r => prodSelect trace columns filt ch r (trace.numRows - r))) := by
  rw [partial_products, ppLoopRev_eq_of_binary trace columns filt ch trace.numRows 1 hb,
    Option.map_some']
  congr 1
  rw [List.map_reverse, List.reverse_reverse]
  simp only [one_mul]

lemma getD_range_map (f : Nat → F) (n i : Nat) (h : i < n) :
    ((List.range n).map f).getD i 0 = f i := by
  rw [List.getD_eq_getElem?_getD, List.getElem?_map, List.getElem?_range h]
  rfl

lemma partial_products_canonical (trace : Trace F) (columns : List (Column F))
    (filt : Option (Column F)) (ch : GrandProductChallenge F) (zs : List F)
    (hz : partial_products trace columns filt ch = some zs) :
    zs = (List.range trace.numRows).map
      (fun r => prodSelect trace columns filt ch r (trace.numRows - r)) := by
  have hb := partial_products_binary_of_some trace columns filt ch zs hz
  have hcan := partial_products_eq_of_binary trace columns filt ch hb
  rw [hz] at hcan
  exact Option.some.inj hcan

/-- C1 counterexample: on the one-row trace with value 5, payload column 0, no filter
and challenge (β, γ) = (0, 0), `partial_products` builds Z = [5], whose last element is
5 ≠ 1 — the last element of the Z sequence is not the multiplicative identity. -/
theorem partial_products_last_one_counterexample :
    partial_products exTrace1 [Column.single 0] none exCh0 = some [5]
    ∧ ([(5 : ZMod 7)].getD (exTrace1.numRows - 1) 0 ≠ 1) := by
  constructor
  · decide
  · decide

/-- C1 amended: given that `partial_products` succeeds on a nonempty trace, the LAST
element of the built Z sequence equals the combined payload of the last row when the
filter evaluates to 1 there, and equals the multiplicative identity 1 when the filter
evaluates to 0 there (it is 1 only in the latter case). -/
theorem partial_products_last_element (trace : Trace F) (columns : List (Column F))
    (filt : Option (Column F)) (ch : GrandProductChallenge F) (zs : List F)
    (hz : partial_products trace columns filt ch = some zs)
    (hn : 0 < trace.numRows) :
    (filterAt trace filt (trace.numRows - 1) = 1 →
      zs.getD (trace.numRows - 1) 0 = combineRow trace columns ch (trace.numRows - 1))
    ∧ (filterAt trace filt (trace.numRows - 1) = 0 →
      zs.getD (trace.numRows - 1) 0 = 1) := by
  have hzs := partial_products_canonical trace columns filt ch zs hz
  have hlt : trace.numRows - 1 < trace.numRows := by omega
  have he : zs.getD (trace.numRows - 1) 0
      = prodSelect trace columns filt ch (trace.numRows - 1)
          (trace.numRows - (trace.numRows - 1)) := by
    rw [hzs, getD_range_map _ _ _ hlt]
  have hone : trace.numRows - (trace.numRows - 1) = 1 := by omega
  rw [hone] at he
  rw [show prodSelect trace columns filt ch (trace.numRows - 1) 1
      = selectRow trace columns filt ch (trace.numRows - 1)
          * prodSelect trace columns filt ch (trace.numRows - 1 + 1) 0
    from rfl] at he
  rw [show prodSelect trace columns filt ch (trace.numRows - 1 + 1) 0 = 1 from rfl,
    mul_one] at he
  constructor
  · intro hf
    rw [he, selectRow, if_pos hf]
  · intro hf
    rw [he, selectRow, if_neg (by rw [hf]; exact zero_ne_one)]

/-- Witness for the amended C1 theorem at the concrete one-row input. -/
theorem partial_products_last_element_witness :
    partial_products exTrace1 [Column.single 0] none exCh0 = some [5]
    ∧ 0 < exTrace1.numRows
    ∧ ((filterAt exTrace1 none (exTrace1.numRows - 1) = 1 →
        [(5 : ZMod 7)].getD (exTrace1.numRows - 1) 0
          = combineRow exTrace1 [Column.single 0] exCh0 (exTrace1.numRows - 1))
      ∧ (filterAt exTrace1 none (exTrace1.numRows - 1) = 0 →
        [(5 : ZMod 7)].getD (exTrace1.numRows - 1) 0 = 1)) :=
  ⟨by decide, by decide,
    partial_products_last_element exTrace1 [Column.single 0] none exCh0 [5]
      (by decide) (by decide)⟩

/-- C2: on a trace with at least two rows, when `partial_products` succeeds (binary
filter), the built Z sequence satisfies, for every row `i` strictly before the last,
`Z[i] = Z[i+1] * combineRow(i)` when the filter evaluates to 1 at row `i`, and
`Z[i] = Z[i+1]` when it evaluates to 0, where `combineRow` is the challenge's β-power
reduction of the row's payload plus γ. -/
theorem partial_products_recurrence (trace : Trace F) (columns : List (Column F))
    (filt : Column F) (ch : GrandProductChallenge F) (zs : List F) (i : Nat)
    (hrows : 2 ≤ trace.numRows)
    (hz : partial_products trace columns (some filt) ch = some zs)
    (hi : i + 1 < trace.numRows) :
    (filterAt trace (some filt) i = 1 →
      zs.getD i 0 = zs.getD (i + 1) 0 * combineRow trace columns ch i)
    ∧ (filterAt trace (some filt) i = 0 → zs.getD i 0 = zs.getD (i + 1) 0) := by
  have hzs := partial_products_canonical trace columns (some filt) ch zs hz
  have e1 : zs.getD i 0
      = prodSelect trace columns (some filt) ch i (trace.numRows - i) := by
    rw [hzs, getD_range_map _ _ _ (by omega)]
  have e2 : zs.getD (i + 1) 0
      = prodSelect trace columns (some filt) ch (i + 1) (trace.numRows - (i + 1)) := by
    rw [hzs, getD_range_map _ _ _ hi]
  have hk : trace.numRows - i = (trace.numRows - (i + 1)) + 1 := by omega
  have hstep : prodSelect trace columns (some filt) ch i ((trace.numRows - (i + 1)) + 1)
      = selectRow trace columns (some filt) ch i
          * prodSelect trace columns (some filt) ch (i + 1) (trace.numRows - (i + 1)) :=
    rfl
  constructor
  · intro hf
    rw [e1, e2, hk, hstep, selectRow, if_pos hf]
    ring
  · intro hf
    rw [e1, e2, hk, hstep, selectRow, if_neg (by rw [hf]; exact zero_ne_one), one_mul]

/-- Witness for the C2 theorem at a concrete two-row input (Z = [6, 3], row 0). -/
theorem partial_products_recurrence_witness :
    2 ≤ exTrace2.numRows
    ∧ partial_products exTrace2 [Column.single 0] (some Column.one) exCh1 = some [6, 3]
    ∧ 0 + 1 < exTrace2.numRows
    ∧ ((filterAt exTrace2 (some Column.one) 0 = 1 →
        ([6, 3] : List (ZMod 7)).getD 0 0
          = ([6, 3] : List (ZMod 7)).getD (0 + 1) 0
              * combineRow exTrace2 [Column.single 0] exCh1 0)
      ∧ (filterAt exTrace2 (some Column.one) 0 = 0 →
        ([6, 3] : List (ZMod 7)).getD 0 0 = ([6, 3] : List (ZMod 7)).getD (0 + 1) 0)) :=
  ⟨by decide, by decide, by decide,
    partial_products_recurrence exTrace2 [Column.single 0] Column.one exCh1 [6, 3] 0
      (by decide) (by decide) (by decide)⟩

lemma process_table_loop_isSome_iff (trace : Trace F) (twc : TableWithColumns F) :
    ∀ i : Nat, (process_table_loop trace twc i).isSome = true ↔
      ∀ r, r < i → filterAt trace twc.filter_column r = 0
        ∨ filterAt trace twc.filter_column r = 1 := by
  intro i
  induction i with
  | zero =>
    simp [process_table_loop]
  | succ i ih =>
    cases hp : process_table_loop trace twc i with
    | none =>
      have hred : process_table_loop trace twc (i + 1) = none := by
        simp only [process_table_loop, hp]
      rw [hred]
      constructor
      · intro hfalse
        exact absurd hfalse (by simp)
      · intro hb
        have : (process_table_loop trace twc i).isSome = true :=
          ih.mpr (fun r hr => hb r (Nat.lt_succ_of_lt hr))
        rw [hp] at this
        exact absurd this (by simp)
    | some acc =>
      have hred : process_table_loop trace twc (i + 1)
          = (if filterAt trace twc.filter_column i = 1 then
              some (acc ++ [(twc.columns.map (fun c => c.eval_table trace i), twc.table, i)])
            else if filterAt trace twc.filter_column i = 0 then
              some acc
            else
              none) := by
        simp only [process_table_loop, hp]
      rw [hred]
      have hsome : (process_table_loop trace twc i).isSome = true := by
        rw [hp]; rfl
      have hbelow := ih.mp hsome
      by_cases h1 : filterAt trace twc.filter_column i = 1
      · rw [if_pos h1]
        constructor
        · intro _ r hr
          rcases Nat.lt_succ_iff_lt_or_eq.mp hr with h | h
          · exact hbelow r h
          · subst h; exact Or.inr h1
        · intro _
          rfl
      · by_cases h0 : filterAt trace twc.filter_column i = 0
        · rw [if_neg h1, if_pos h0]
          constructor
          · intro _ r hr
            rcases Nat.lt_succ_iff_lt_or_eq.mp hr with h | h
            · exact hbelow r h
            · subst h; exact Or.inl h0
          · intro _
            rfl
        · rw [if_neg h1, if_neg h0]
          constructor
          · intro hfalse
            exact absurd hfalse (by simp)
          · intro hb
            rcases hb i (Nat.lt_succ_self i) with h | h
            · exact absurd h h0
            · exact absurd h h1

/-- C7: `partial_products` aborts (the non-binary-filter assertion, modelled as `none`)
if and only if the filter evaluates at some trace row to a value that is neither 0 nor 1,
and completes normally on every trace whose filter is binary at every row; the test
oracle's `process_table` rejects non-binary filter values under exactly the same
condition. -/
theorem filter_binary_abort (trace : Trace F) (columns : List (Column F))
    (filt : Option (Column F)) (ch : GrandProductChallenge F) (twc : TableWithColumns F) :
    (partial_products trace columns filt ch = none ↔
      ∃ i, i < trace.numRows ∧ filterAt trace filt i ≠ 0 ∧ filterAt trace filt i ≠ 1)
    ∧ (process_table trace twc = none ↔
      ∃ i, i < trace.numRows ∧ filterAt trace twc.filter_column i ≠ 0
        ∧ filterAt trace twc.filter_column i ≠ 1) := by
  constructor
  · constructor
    · intro hn
      have hnb : ¬ ∀ r, r < trace.numRows →
          filterAt trace filt r = 0 ∨ filterAt trace filt r = 1 := by
        intro hb
        have := (partial_products_isSome_iff trace columns filt ch).mpr hb
        rw [hn] at this
        exact absurd this (by simp)
      push_neg at hnb
      obtain ⟨i, hi, h0, h1⟩ := hnb
      exact ⟨i, hi, h0, h1⟩
    · rintro ⟨i, hi, h0, h1⟩
      cases hp : partial_products trace columns filt ch with
      | none => rfl
      | some zs =>
        rcases partial_products_binary_of_some trace columns filt ch zs hp i hi with h | h
        · exact absurd h h0
        · exact absurd h h1
  · constructor
    · intro hn
      have hnb : ¬ ∀ r, r < trace.numRows →
          filterAt trace twc.filter_column r = 0 ∨ filterAt trace twc.filter_column r = 1 := by
        intro hb
        have := (process_table_loop_isSome_iff trace twc trace.numRows).mpr hb
        rw [process_table] at hn
        rw [hn] at this
        exact absurd this (by simp)
      push_neg at hnb
      obtain ⟨i, hi, h0, h1⟩ := hnb
      exact ⟨i, hi, h0, h1⟩
    · rintro ⟨i, hi, h0, h1⟩
      cases hp : process_table trace twc with
      | none => rfl
      | some acc =>
        have hsome : (process_table_loop trace twc trace.numRows).isSome = true := by
          rw [← process_table, hp]; rfl
        rcases (process_table_loop_isSome_iff trace twc trace.numRows).mp hsome i hi
          with h | h
        · exact absurd h h0
        · exact absurd h h1

lemma filterAt_one (trace : Trace F) (i : Nat) :
    filterAt trace (some Column.one) i = 1 := by
  rw [filterAt, Column.eval_table, Column.one]
  simp

lemma ppLoopRev_none_eq_one (trace : Trace F) (columns : List (Column F))
    (ch : GrandProductChallenge F) :
    ∀ (i : Nat) (p : F), ppLoopRev trace columns none ch i p
      = ppLoopRev trace columns (some Column.one) ch i p := by
  intro i
  induction i with
  | zero =>
    intro p
    rfl
  | succ i ih =>
    intro p
    rw [show ppLoopRev trace columns none ch (i + 1) p
        = (if filterAt trace none i = 1 then
            (ppLoopRev trace columns none ch i (p * combineRow trace columns ch i)).map
              (fun rest => p * combineRow trace columns ch i :: rest)
          else if filterAt trace none i = 0 then
            (ppLoopRev trace columns none ch i p).map (fun rest => p :: rest)
          else none)
      from rfl]
    rw [show ppLoopRev trace columns (some Column.one) ch (i + 1) p
        = (if filterAt trace (some Column.one) i = 1 then
            (ppLoopRev trace columns (some Column.one) ch i
                (p * combineRow trace columns ch i)).map
              (fun rest => p * combineRow trace columns ch i :: rest)
          else if filterAt trace (some Column.one) i = 0 then
            (ppLoopRev trace columns (some Column.one) ch i p).map (fun rest => p :: rest)
          else none)
      from rfl]
    rw [if_pos (show filterAt trace (none : Option (Column F)) i = 1 from rfl),
      if_pos (filterAt_one trace i), ih]

lemma prodSelect_none (trace : Trace F) (columns : List (Column F))
    (ch : GrandProductChallenge F) :
    ∀ (k i : Nat), prodSelect trace columns none ch i k
      = allRowsProduct trace columns ch i k := by
  intro k
  induction k with
  | zero =>
    intro i
    rfl
  | succ k ih =>
    intro i
    rw [show prodSelect trace columns none ch i (k + 1)
        = selectRow trace columns none ch i * prodSelect trace columns none ch (i + 1) k
      from rfl]
    rw [show allRowsProduct trace columns ch i (k + 1)
        = combineRow trace columns ch i * allRowsProduct trace columns ch (i + 1) k
      from rfl]
    rw [selectRow, if_pos (show filterAt trace (none : Option (Column F)) i = 1 from rfl),
      ih]

/-- C10: when the filter column is absent every row is treated as selected:
`partial_products` behaves exactly as with the constant filter `Column::one` (filter = 1
at every row), it never aborts and multiplies the challenge-combined payload of every
row into the running product (Z[i] is the product of the combined payloads of all rows
from i to the last), and the constraint evaluator's selector collapses to the re-derived
combined payload value. -/
theorem ctl_no_filter_selects_all (trace : Trace F) (columns : List (Column F))
    (ch : GrandProductChallenge F) (lv nv : Nat → F) (lz nz : F) :
    partial_products trace columns none ch
      = partial_products trace columns (some Column.one) ch
    ∧ partial_products trace columns none ch
      = some ((List.range trace.numRows).map
          (fun r => allRowsProduct trace columns ch r (trace.numRows - r)))
    ∧ selectOf lv nv ⟨lz, nz, ch, columns, none⟩
      = combinedOf lv nv ⟨lz, nz, ch, columns, none⟩ := by
  refine ⟨?_, ?_, ?_⟩
  · rw [partial_products, partial_products, ppLoopRev_none_eq_one]
  · rw [partial_products_eq_of_binary trace columns none ch
      (fun r _ => Or.inr rfl)]
    congr 1
    apply List.map_congr_left
    intro r _
    rw [prodSelect_none]
  · rw [selectOf, show filterOf lv nv ⟨lz, nz, ch, columns, none⟩ = 1 from rfl]
    ring

/-- C4: for every evaluation frame and list of `CtlCheckVars` entries,
`eval_cross_table_lookup_checks` emits, per entry and in order, exactly one last-row-only
constraint `local_z - select` and exactly one transition constraint
`next_z * select - local_z`, where `select` is computed from the re-derived combined
payload and filter values as `filter * combine + (1 - filter)`. -/
theorem eval_ctl_checks_constraints (lv nv : Nat → F) (vars : List (CtlCheckVars F))
    (consumer : ConstraintConsumer F) :
    eval_cross_table_lookup_checks lv nv vars consumer =
      { constraints_last_row := consumer.constraints_last_row
          ++ vars.map (fun v => v.local_z - selectOf lv nv v),
        constraints_transition := consumer.constraints_transition
          ++ vars.map (fun v => v.next_z * selectOf lv nv v - v.local_z) }
    ∧ ∀ v : CtlCheckVars F,
        selectOf lv nv v = filterOf lv nv v * combinedOf lv nv v + (1 - filterOf lv nv v) := by
  constructor
  · induction vars generalizing consumer with
    | nil =>
      cases consumer
      simp [eval_cross_table_lookup_checks]
    | cons v rest ih =>
      have hstep : eval_cross_table_lookup_checks lv nv (v :: rest) consumer =
          eval_cross_table_lookup_checks lv nv rest
            ((consumer.constraint_last_row (v.local_z - selectOf lv nv v)).constraint_transition
              (v.next_z * selectOf lv nv v - v.local_z)) := rfl
      rw [hstep, ih]
      simp [ConstraintConsumer.constraint_last_row, ConstraintConsumer.constraint_transition]
  · intro v
    rw [selectOf]
    ring

lemma sum_map_zero (l : List (Nat × F)) : (l.map (fun _ => (0 : F))).sum = 0 := by
  induction l with
  | nil => rfl
  | cons a l ih => simp [ih]

/-- C8: `Column::eval_table` at a row strictly before the last includes the next-row
linear combination evaluated on row + 1; at the last row index (and beyond) the next-row
contribution is dropped, i.e. the evaluation behaves as `eval_with_next` against an
all-zero next row. -/
theorem eval_table_next_row (col : Column F) (trace : Trace F) (row : Nat)
    (hne : ¬ col.next_row_linear_combination.isEmpty)
    (hrows : 0 < trace.numRows) :
    col.eval_table trace row =
      if row < trace.numRows - 1 then
        col.eval_with_next (fun c => trace.val c row) (fun c => trace.val c (row + 1))
      else
        col.eval_with_next (fun c => trace.val c row) (fun _ => 0) := by
  rw [Column.eval_table, Column.eval_with_next, Column.eval_with_next]
  by_cases h : row < trace.numRows - 1
  · rw [if_pos ⟨hne, h⟩, if_pos h]
    ring
  · rw [if_neg (fun hc => h hc.2), if_neg h]
    have hz : (col.next_row_linear_combination.map
        (fun p => (fun _ : Nat => (0 : F)) p.1 * p.2)).sum = 0 := by
      have he : (fun p : Nat × F => (fun _ : Nat => (0 : F)) p.1 * p.2)
          = fun _ : Nat × F => (0 : F) := by
        funext p
        ring
      rw [he, sum_map_zero]
    rw [hz]
    ring

/-- Witness for the C8 theorem at a concrete column and two-row trace. -/
theorem eval_table_next_row_witness :
    (¬ exColNext.next_row_linear_combination.isEmpty)
    ∧ 0 < exTrace2.numRows
    ∧ exColNext.eval_table exTrace2 0 =
        if 0 < exTrace2.numRows - 1 then
          exColNext.eval_with_next (fun c => exTrace2.val c 0) (fun c => exTrace2.val c (0 + 1))
        else
          exColNext.eval_with_next (fun c => exTrace2.val c 0) (fun _ => 0) :=
  ⟨by decide, by decide, eval_table_next_row exColNext exTrace2 0 (by decide) (by decide)⟩

lemma reduce_with_powers_eq (v : List F) (beta : F) :
    reduce_with_powers v beta =
      ((List.range v.length).map (fun i => beta ^ i * v.getD i 0)).sum := by
  induction v with
  | nil =>
    simp [reduce_with_powers]
  | cons t ts ih =>
    have hstep : reduce_with_powers (t :: ts) beta
        = reduce_with_powers ts beta * beta + t := rfl
    rw [hstep, ih, List.length_cons, List.range_succ_eq_map, List.map_cons, List.sum_cons,
      List.map_map]
    have hcomp : ((fun i => beta ^ i * (t :: ts).getD i 0) ∘ Nat.succ)
        = fun i => beta * (beta ^ i * ts.getD i 0) := by
      funext i
      rw [Function.comp_apply, List.getD_cons_succ, pow_succ]
      ring
    rw [hcomp, List.sum_map_mul_left, List.getD_cons_zero, pow_zero, one_mul]
    ring

/-- C3 counterexample: with β = 2, γ = 0 over `ZMod 7` and ordered payload [0, 1],
`combine` returns 0 + 2·1 = 2, not the claimed `β^(n-1)·v₀ + β^(n-2)·v₁ + γ` =
2·0 + 1 + 0 = 1: the highest power of β does not multiply the first element. -/
theorem combine_powers_counterexample :
    exCh2.combine [0, 1] ≠ (2 : ZMod 7) ^ 1 * 0 + (2 : ZMod 7) ^ 0 * 1 + 0 := by
  decide

/-- C3 amended: for every challenge (β, γ) and ordered payload list v₀, …, v_{n-1},
`combine` returns `v₀ + β·v₁ + … + β^(n-1)·v_{n-1} + γ`: element `i` is multiplied by
`β^i`, so the highest power of β multiplies the LAST element of the list. -/
theorem combine_powers_eq (ch : GrandProductChallenge F) (v : List F) :
    ch.combine v =
      ((List.range v.length).map (fun i => ch.beta ^ i * v.getD i 0)).sum + ch.gamma := by
  rw [GrandProductChallenge.combine, reduce_with_powers_eq]

lemma readChallenges_append {T : Type} (cs : List (GrandProductChallenge T))
    (rest : List (BufEntry T)) :
    readChallenges cs.length
      (cs.flatMap (fun ch => [BufEntry.tgt ch.beta, BufEntry.tgt ch.gamma]) ++ rest)
      = some (cs, rest) := by
  induction cs with
  | nil =>
    rfl
  | cons c cs ih =>
    have hflat : ((c :: cs).flatMap
          (fun ch => [BufEntry.tgt ch.beta, BufEntry.tgt ch.gamma])) ++ rest
        = BufEntry.tgt c.beta :: BufEntry.tgt c.gamma ::
            (cs.flatMap (fun ch => [BufEntry.tgt ch.beta, BufEntry.tgt ch.gamma]) ++ rest) := by
      simp
    rw [List.length_cons, hflat]
    have hstep : readChallenges (cs.length + 1)
        (BufEntry.tgt c.beta :: BufEntry.tgt c.gamma ::
          (cs.flatMap (fun ch => [BufEntry.tgt ch.beta, BufEntry.tgt ch.gamma]) ++ rest))
        = (match readChallenges cs.length
            (cs.flatMap (fun ch => [BufEntry.tgt ch.beta, BufEntry.tgt ch.gamma]) ++ rest) with
          | none => none
          | some (l, buf) => some (GrandProductChallenge.mk c.beta c.gamma :: l, buf)) := rfl
    rw [hstep, ih]

/-- C9: decoding the buffer produced by encoding a `GrandProductChallengeSet` — the
challenge count followed by each challenge's β and γ as two consecutive values in draw
order — returns the original set (and consumes the whole buffer). -/
theorem challenge_set_roundtrip {T : Type} (s : GrandProductChallengeSet T) :
    GrandProductChallengeSet.from_buffer s.to_buffer = some (s, []) := by
  obtain ⟨cs⟩ := s
  have hbuf : (GrandProductChallengeSet.mk cs).to_buffer
      = BufEntry.usz cs.length ::
          (cs.flatMap (fun ch => [BufEntry.tgt ch.beta, BufEntry.tgt ch.gamma]) ++ []) := by
    rw [List.append_nil]
    rfl
  rw [hbuf]
  have hfrom : GrandProductChallengeSet.from_buffer
      (BufEntry.usz cs.length ::
        (cs.flatMap (fun ch => [BufEntry.tgt ch.beta, BufEntry.tgt ch.gamma]) ++ []))
      = (match readChallenges cs.length
          (cs.flatMap (fun ch => [BufEntry.tgt ch.beta, BufEntry.tgt ch.gamma]) ++ []) with
        | none => none
        | some (l, buf1) => some (GrandProductChallengeSet.mk l, buf1)) := rfl
  rw [hfrom, readChallenges_append]

lemma runChallenges_of_consume (looking : List (TableWithColumns F)) (lookedT : Nat)
    (extraVec : List F) (index : Nat) :
    ∀ (k c : Nat) (st : List (List F)) (bs : List Bool) (stf : List (List F)),
      chalConsume looking lookedT extraVec c k st = some (bs, stf) →
      (bs.all id = true →
        runChallenges looking lookedT extraVec index c k st = CtlOutcome.ok stf)
      ∧ (bs.all id = false →
        runChallenges looking lookedT extraVec index c k st = CtlOutcome.mismatch index) := by
  intro k
  induction k with
  | zero =>
    intro c st bs stf h
    simp only [chalConsume, Option.some.injEq, Prod.mk.injEq] at h
    obtain ⟨h1, h2⟩ := h
    subst h1
    subst h2
    constructor
    · intro _
      rfl
    · intro hfalse
      exact absurd hfalse (by simp)
  | succ k ih =>
    intro c st bs stf h
    simp only [chalConsume] at h
    split at h
    · exact absurd h (by simp)
    · rename_i p st1 hlp
      split at h
      · exact absurd h (by simp)
      · rename_i e he
        split at h
        · exact absurd h (by simp)
        · rename_i lz st2 hno
          split at h
          · exact absurd h (by simp)
          · rename_i bs' st3 hcc
            simp only [Option.some.injEq, Prod.mk.injEq] at h
            obtain ⟨hbs, hstf⟩ := h
            subst hbs
            subst hstf
            have hrun : runChallenges looking lookedT extraVec index c (k + 1) st
                = (if p * e = lz then
                    runChallenges looking lookedT extraVec index (c + 1) k st2
                  else CtlOutcome.mismatch index) := by
              simp only [runChallenges, hlp, he, hno]
            by_cases heq : p * e = lz
            · have hdec : decide (p * e = lz) = true := decide_eq_true heq
              constructor
              · intro hall
                rw [List.all_cons, hdec] at hall
                rw [hrun, if_pos heq]
                exact (ih (c + 1) st2 bs' st3 hcc).1 (by simpa using hall)
              · intro hall
                rw [List.all_cons, hdec] at hall
                rw [hrun, if_pos heq]
                exact (ih (c + 1) st2 bs' st3 hcc).2 (by simpa using hall)
            · have hdec : decide (p * e = lz) = false := decide_eq_false heq
              constructor
              · intro hall
                rw [List.all_cons, hdec] at hall
                exact absurd hall (by simp)
              · intro _
                rw [hrun, if_neg heq]

lemma runLookups_of_consume (extras : List (List F)) (nc : Nat) :
    ∀ (ctls : List (CrossTableLookup F)) (index : Nat) (st : List (List F))
      (bs : List Bool) (stf : List (List F)),
      lookupsConsume extras nc ctls st = some (bs, stf) →
      (bs.all id = true → runLookups extras nc index ctls st = CtlOutcome.ok stf)
      ∧ (bs.all id = false →
        ∃ j, runLookups extras nc index ctls st = CtlOutcome.mismatch j) := by
  intro ctls
  induction ctls with
  | nil =>
    intro index st bs stf h
    simp only [lookupsConsume, Option.some.injEq, Prod.mk.injEq] at h
    obtain ⟨h1, h2⟩ := h
    subst h1
    subst h2
    constructor
    · intro _
      rfl
    · intro hfalse
      exact absurd hfalse (by simp)
  | cons ctl rest ih =>
    intro index st bs stf h
    simp only [lookupsConsume] at h
    split at h
    · exact absurd h (by simp)
    · rename_i ev hex
      split at h
      · exact absurd h (by simp)
      · rename_i bs1 st1 hcc
        split at h
        · exact absurd h (by simp)
        · rename_i bs2 st2 hlc
          simp only [Option.some.injEq, Prod.mk.injEq] at h
          obtain ⟨hbs, hstf⟩ := h
          subst hbs
          subst hstf
          have hrc := runChallenges_of_consume ctl.looking_tables ctl.looked_table.table
            ev index nc 0 st bs1 st1 hcc
          have hrun : runLookups extras nc index (ctl :: rest) st
              = (match runChallenges ctl.looking_tables ctl.looked_table.table ev index 0
                    nc st with
                | CtlOutcome.ok st1 => runLookups extras nc (index + 1) rest st1
                | r => r) := by
            simp only [runLookups, hex]
          cases hb1 : bs1.all id with
          | false =>
            have hmis := hrc.2 hb1
            have hall : (bs1 ++ bs2).all id = false := by
              rw [List.all_append, hb1]
              rfl
            constructor
            · intro htrue
              rw [hall] at htrue
              exact absurd htrue (by simp)
            · intro _
              refine ⟨index, ?_⟩
              rw [hrun, hmis]
          | true =>
            have hok := hrc.1 hb1
            have hall : (bs1 ++ bs2).all id = bs2.all id := by
              rw [List.all_append, hb1, Bool.true_and]
            constructor
            · intro htrue
              rw [hall] at htrue
              rw [hrun, hok]
              exact (ih (index + 1) st1 bs2 st2 hlc).1 htrue
            · intro hfalse
              rw [hall] at hfalse
              obtain ⟨j, hj⟩ := (ih (index + 1) st1 bs2 st2 hlc).2 hfalse
              refine ⟨j, ?_⟩
              rw [hrun, hok]
              exact hj

/-- C5: assuming the opening lists and extra-product vectors are long enough for the
whole pass (the consumption skeleton succeeds — otherwise the Rust code panics on
`unwrap`), `verify_cross_table_lookups` returns `Ok` if and only if every product
identity — per lookup and per challenge, in consumption order (lookup order, then
challenge order, then looking-table order), the product of the looking tables' first-row
Z openings times the looked table's extra-looking-product term equals the looked table's
first-row Z opening — holds; any mismatch makes it return the error outcome. -/
theorem verify_ctl_ok_iff (ctls : List (CrossTableLookup F)) (zs extras : List (List F))
    (nc : Nat) (bs : List Bool) (stf : List (List F))
    (h : lookupsConsume extras nc ctls zs = some (bs, stf)) :
    (verify_cross_table_lookups ctls zs extras nc = CtlOutcome.ok stf ↔ bs.all id = true)
    ∧ (bs.all id = false →
      ∃ j, verify_cross_table_lookups ctls zs extras nc = CtlOutcome.mismatch j) := by
  have hr := runLookups_of_consume extras nc ctls 0 zs bs stf h
  constructor
  · constructor
    · intro hok
      cases hb : bs.all id with
      | true => rfl
      | false =>
        obtain ⟨j, hj⟩ := hr.2 hb
        rw [verify_cross_table_lookups] at hok
        rw [hok] at hj
        exact absurd hj (by simp)
    · intro hb
      rw [verify_cross_table_lookups]
      exact hr.1 hb
  · intro hb
    obtain ⟨j, hj⟩ := hr.2 hb
    refine ⟨j, ?_⟩
    rw [verify_cross_table_lookups]
    exact hj

/-- Witness for the C5 theorem at a concrete one-lookup input whose product identity
holds. -/
theorem verify_ctl_ok_iff_witness :
    lookupsConsume [[], [1]] 1 exCtls [[3], [3]]
      = some ([true], [[], ([] : List (ZMod 7))])
    ∧ ((verify_cross_table_lookups exCtls [[3], [3]] [[], [1]] 1
          = CtlOutcome.ok [[], []] ↔ [true].all id = true)
      ∧ ([true].all id = false →
        ∃ j, verify_cross_table_lookups exCtls [[3], [3]] [[], [1]] 1
          = CtlOutcome.mismatch j)) :=
  ⟨by decide, verify_ctl_ok_iff exCtls [[3], [3]] [[], [1]] 1 [true] [[], []] (by decide)⟩

/-- C6 counterexample: with one lookup (table 0 looking into table 1), opening lists
[[3, 5], [3]] and one challenge, the lone product identity holds, table 0's opening list
is left undrained (the 5 is never consumed), and `verify_cross_table_lookups` still
returns the success outcome — the release-build `Ok(())` — rather than a recoverable
error: residual openings are checked only by a `debug_assert!`. -/
theorem verify_ctl_leftover_counterexample :
    verify_cross_table_lookups exCtls [[3, 5], [3]] [[], [1]] 1
      = CtlOutcome.ok [[5], ([] : List (ZMod 7))]
    ∧ ([[5], ([] : List (ZMod 7))].all List.isEmpty) = false := by
  constructor
  · decide
  · decide

/-- C6 amended: undrained openings are NOT surfaced as a recoverable error: whenever the
consumption skeleton succeeds and every product identity holds,
`verify_cross_table_lookups` returns the success outcome even when some table's opening
list is not fully drained; drained-ness is checked only by a debug-only assertion (an
abort in debug builds, skipped in release builds). -/
theorem verify_ctl_leftover_ignored (ctls : List (CrossTableLookup F))
    (zs extras : List (List F)) (nc : Nat) (bs : List Bool) (stf : List (List F))
    (h : lookupsConsume extras nc ctls zs = some (bs, stf))
    (hall : bs.all id = true)
    (hleft : stf.all List.isEmpty = false) :
    verify_cross_table_lookups ctls zs extras nc = CtlOutcome.ok stf :=
  (runLookups_of_consume extras nc ctls 0 zs bs stf h).1 hall

/-- Witness for the amended C6 theorem at the concrete undrained input. -/
theorem verify_ctl_leftover_ignored_witness :
    lookupsConsume [[], [1]] 1 exCtls [[3, 5], [3]]
      = some ([true], [[5], ([] : List (ZMod 7))])
    ∧ ([true].all id = true)
    ∧ (([[5], ([] : List (ZMod 7))].all List.isEmpty) = false)
    ∧ verify_cross_table_lookups exCtls [[3, 5], [3]] [[], [1]] 1
        = CtlOutcome.ok [[5], []] :=
  ⟨by decide, by decide, by decide,
    verify_ctl_leftover_ignored exCtls [[3, 5], [3]] [[], [1]] 1 [true] [[5], []]
      (by decide) (by decide) (by decide)⟩

end CTL
